import Mathlib

/-!
# clProbDist, `src/client/Performance/Options.h`

A verification development for the declarations of the performance client's
option header:

* the enumeration `ExecType` (lines 28-33), with its explicit integer codes;
* the plain struct `OptionData` (lines 35-39);
* the three prototypes `Option1`, `Option2`, `Option3` (lines 42-46).

The header is all of the client that is available: the bodies of the three
entry points, the kernel dispatch and the benchmark driver are not.  Nothing
is stated below about what the entry points return; the dispatch on a
strategy value is stated about definitions that are marked as modelled from
the specification.
-/

namespace ClProbDist

/-! ## `ExecType` -/

/-- The C enumeration `ExecType` (`typedef enum ExecType_ { ... } ExecType;`):
four enumerators, none carrying data. -/
inductive ExecType where
  | simWithObject
  | simStatic
  | simUseGlobalMem
  | simUseLocalMem
  deriving DecidableEq, Repr, Fintype

namespace ExecType

/-- The integer value the header gives each enumerator
(`simWithObject = 1`, `simStatic = 2`, `simUseGlobalMem = 3`,
`simUseLocalMem = 4`). -/
def code : ExecType → Int
  | simWithObject => 1
  | simStatic => 2
  | simUseGlobalMem => 3
  | simUseLocalMem => 4

/-- Reading an integer back as an enumerator: the enumerator whose declared
value it is, if there is one.  (C itself converts silently; this is the
checked conversion, defined by the enumerator values of the header.) -/
def ofCode? (v : Int) : Option ExecType :=
  if v = 1 then some simWithObject
  else if v = 2 then some simStatic
  else if v = 3 then some simUseGlobalMem
  else if v = 4 then some simUseLocalMem
  else none

/-- The order of the enumerators, read off their integer values. -/
def precedes (a b : ExecType) : Prop := a.code < b.code

instance (a b : ExecType) : Decidable (precedes a b) := by
  unfold precedes; infer_instance

end ExecType

/-! ## `OptionData` -/

/-- The C struct `OptionData` (`int n; int n1; double* lambdaArr;`).  The two
`int` members are integers; the pointer member is represented by the array of
doubles it points to.  Nothing in the struct ties the three members together. -/
structure OptionData where
  n : Int
  n1 : Int
  lambdaArr : List Float

namespace OptionData

/-- The members of an `OptionData`, in declaration order. -/
def members (d : OptionData) : Int × Int × List Float :=
  (d.n, d.n1, d.lambdaArr)

/-- The data-model invariant as the specification words it for the parameter
set: `count >= 1`, `secondaryCount >= 0`, and `values` has exactly `count`
entries.  It is a predicate on `OptionData`, not part of the struct. -/
def SpecInvariant (d : OptionData) : Prop :=
  1 ≤ d.n ∧ 0 ≤ d.n1 ∧ (d.lambdaArr.length : Int) = d.n

instance (d : OptionData) : Decidable d.SpecInvariant := by
  unfold SpecInvariant; infer_instance

end OptionData

/-! ## The declarations, as written -/

/-- The C types that occur in the header.  `cl_context`, `cl_device_id` and
`cl_command_queue` come from an included header and are kept as the names the
prototypes use; `OptionData` and `ExecType` are the header's own typedefs. -/
inductive CType where
  | int
  | double
  | void
  | ptr (pointee : CType)
  | typedefName (ident : String)
  deriving DecidableEq, Repr

/-- A function prototype: return type and parameter types, in order. -/
structure Prototype where
  returns : CType
  params : List CType
  deriving DecidableEq, Repr

namespace Decl

/-- `int Option1(cl_context context, cl_device_id device, cl_command_queue queue, void* data_);` -/
def Option1 : Prototype :=
  { returns := .int
    params := [.typedefName "cl_context", .typedefName "cl_device_id",
               .typedefName "cl_command_queue", .ptr .void] }

/-- `int Option2(cl_context context, cl_device_id device, cl_command_queue queue, void* data_);` -/
def Option2 : Prototype :=
  { returns := .int
    params := [.typedefName "cl_context", .typedefName "cl_device_id",
               .typedefName "cl_command_queue", .ptr .void] }

/-- `int Option3(cl_context context, cl_device_id device, cl_command_queue queue, void* data_);` -/
def Option3 : Prototype :=
  { returns := .int
    params := [.typedefName "cl_context", .typedefName "cl_device_id",
               .typedefName "cl_command_queue", .ptr .void] }

/-- The member declarations of `struct OptionData_`, in order:
`int n; int n1; double* lambdaArr;`. -/
def OptionData : List (String × CType) :=
  [("n", .int), ("n1", .int), ("lambdaArr", .ptr .double)]

end Decl

/-! ## Dispatch: what the header does not contain -/

/-- Modelled from the spec: where per-work-item scratch state is allocated
(part (b) of the dispatch-table contract).  The dispatch table is missing from
the header. -/
inductive MemorySpace where
  | global
  | localOrPrivate
  deriving DecidableEq, Repr

/-- Modelled from the spec: how the call site reaches the distribution's
routine (part (c) of the dispatch-table contract), through an object-oriented
wrapper or through the static entry point.  The dispatch table is missing
from the header. -/
inductive DispatchStyle where
  | objectWrapper
  | staticEntryPoint
  deriving DecidableEq, Repr

/-- Modelled from the spec: what the dispatch table produces for a strategy,
(a) the kernel variant to build, (b) the scratch memory space, (c) the
dispatch style.  The dispatch table is missing from the header. -/
structure Recipe where
  kernelVariant : String
  scratch : MemorySpace
  style : DispatchStyle
  deriving DecidableEq, Repr

/-- Modelled from the spec: the result of looking a raw strategy value up in
the dispatch table, a recipe or a contract violation. -/
inductive DispatchResult where
  | recipe (r : Recipe)
  | contractViolation
  deriving DecidableEq, Repr

/-- Modelled from the spec: the missing dispatch table, "a pure mapping, total
over the four variants; an unrecognized value is a programming-contract
violation".  The entries of the table are not given by the specification and
are the parameter `table`; the raw value is read with `ExecType.ofCode?`. -/
def dispatch (table : ExecType → Recipe) (v : Int) : DispatchResult :=
  match ExecType.ofCode? v with
  | some s => .recipe (table s)
  | none => .contractViolation

/-! ## Shared lemmas on `ExecType` -/

namespace ExecType

lemma code_pos_le (s : ExecType) : 1 ≤ s.code ∧ s.code ≤ 4 := by
  cases s <;> decide

lemma ofCode?_code (s : ExecType) : ofCode? s.code = some s := by
  cases s <;> rfl

lemma code_of_ofCode? {v : Int} {s : ExecType} (h : ofCode? v = some s) : s.code = v := by
  unfold ofCode? at h
  split_ifs at h with h1 h2 h3 h4 <;> simp at h <;> subst h <;> simp [code, *]

lemma ofCode?_eq_none_iff (v : Int) : ofCode? v = none ↔ ¬ (1 ≤ v ∧ v ≤ 4) := by
  unfold ofCode?
  split_ifs with h1 h2 h3 h4 <;> simp <;> omega

lemma exists_code_iff (v : Int) : (∃ s : ExecType, s.code = v) ↔ (1 ≤ v ∧ v ≤ 4) := by
  constructor
  · rintro ⟨s, rfl⟩
    exact code_pos_le s
  · intro hv
    cases h : ofCode? v with
    | none => exact absurd hv ((ofCode?_eq_none_iff v).1 h)
    | some s => exact ⟨s, code_of_ofCode? h⟩

lemma code_injective : Function.Injective code := by
  intro a b h
  have := congrArg ofCode? h
  simpa [ofCode?_code] using this

end ExecType

/-! ## Shared lemmas on the modelled dispatch -/

lemma dispatch_code (table : ExecType → Recipe) (s : ExecType) :
    dispatch table s.code = .recipe (table s) := by
  simp [dispatch, ExecType.ofCode?_code]

lemma dispatch_eq_violation_iff (table : ExecType → Recipe) (v : Int) :
    dispatch table v = .contractViolation ↔ ¬ (1 ≤ v ∧ v ≤ 4) := by
  rw [← ExecType.ofCode?_eq_none_iff]
  unfold dispatch
  cases h : ExecType.ofCode? v <;> simp

/-! ## The claims -/

/-- C1. `ExecType` is a closed enumeration of exactly four data-free values:
every value is one of `simWithObject`, `simStatic`, `simUseGlobalMem`,
`simUseLocalMem`; there are four of them; they are pairwise distinct; and the
map to the integer code is injective. -/
theorem ExecType_closed_four_distinct :
    (∀ e : ExecType,
      e = .simWithObject ∨ e = .simStatic ∨ e = .simUseGlobalMem ∨ e = .simUseLocalMem) ∧
    Fintype.card ExecType = 4 ∧
    [ExecType.simWithObject, .simStatic, .simUseGlobalMem, .simUseLocalMem].Nodup ∧
    Function.Injective ExecType.code := by
  refine ⟨?_, rfl, by decide, ExecType.code_injective⟩
  intro e
  cases e <;> simp

/-- C2. On the integer codes the enumerators are strictly ordered,
`simWithObject < simStatic < simUseGlobalMem < simUseLocalMem`; the order is
irreflexive and transitive; of two distinct strategies exactly one comes
before the other; `simWithObject` is the least of the four; and the smaller
of the codes of `simWithObject` and `simStatic` is that of `simWithObject`. -/
theorem ExecType_enumeration_order :
    (ExecType.precedes .simWithObject .simStatic ∧
      ExecType.precedes .simStatic .simUseGlobalMem ∧
      ExecType.precedes .simUseGlobalMem .simUseLocalMem) ∧
    (∀ a : ExecType, ¬ ExecType.precedes a a) ∧
    (∀ a b c : ExecType, a.precedes b → b.precedes c → a.precedes c) ∧
    (∀ a b : ExecType, a ≠ b →
      (a.precedes b ∧ ¬ b.precedes a) ∨ (b.precedes a ∧ ¬ a.precedes b)) ∧
    (∀ e : ExecType, ExecType.simWithObject.code ≤ e.code) ∧
    (∀ e : ExecType, e ≠ .simWithObject → ExecType.precedes .simWithObject e) ∧
    min ExecType.simWithObject.code ExecType.simStatic.code
      = ExecType.simWithObject.code := by
  refine ⟨by decide, ?_, ?_, ?_, ?_, ?_, by decide⟩
  · intro a
    unfold ExecType.precedes
    omega
  · intro a b c
    unfold ExecType.precedes
    omega
  · intro a b hab
    have hne : a.code ≠ b.code := fun h => hab (ExecType.code_injective h)
    unfold ExecType.precedes
    omega
  · intro e
    exact (ExecType.code_pos_le e).1
  · intro e he
    have hne : ExecType.simWithObject.code ≠ e.code :=
      fun h => he (ExecType.code_injective h).symm
    have hlo := (ExecType.code_pos_le e).1
    have h1 : ExecType.simWithObject.code = 1 := rfl
    unfold ExecType.precedes
    omega

/-- C8. The integer codes of `ExecType` are exactly `1..4`: an integer is the
code of a strategy if and only if it lies in that range; reading a code back
gives the strategy it came from; an integer outside the range reads back as
nothing, and only such an integer does; whatever reads back as a strategy is
that strategy's code; and `0` is the code of no strategy. -/
theorem ExecType_code_range_roundtrip :
    (∀ v : Int, (∃ s : ExecType, s.code = v) ↔ (1 ≤ v ∧ v ≤ 4)) ∧
    (∀ s : ExecType, ExecType.ofCode? s.code = some s) ∧
    (∀ v : Int, ExecType.ofCode? v = none ↔ ¬ (1 ≤ v ∧ v ≤ 4)) ∧
    (∀ (v : Int) (s : ExecType), ExecType.ofCode? v = some s ↔ s.code = v) ∧
    (∀ s : ExecType, s.code ≠ 0) ∧
    ExecType.ofCode? 0 = none := by
  refine ⟨ExecType.exists_code_iff, ExecType.ofCode?_code, ExecType.ofCode?_eq_none_iff,
    ?_, ?_, rfl⟩
  · intro v s
    constructor
    · exact ExecType.code_of_ofCode?
    · rintro rfl
      exact ExecType.ofCode?_code s
  · intro s
    have := (ExecType.code_pos_le s).1
    omega

/-- C3, as the claim states it, fails: the zero-initialised struct
(`n = 0`, `n1 = 0`, no array) breaks `n >= 1`; `n = 1`, `n1 = -1` with a
one-entry array breaks `n1 >= 0`; `n = 2`, `n1 = 0` with a one-entry array
breaks the length condition.  So not every `OptionData` satisfies the
invariant. -/
theorem OptionData_invariant_not_universal :
    ¬ OptionData.SpecInvariant { n := 0, n1 := 0, lambdaArr := [] } ∧
    ¬ OptionData.SpecInvariant { n := 1, n1 := -1, lambdaArr := [1.0] } ∧
    ¬ OptionData.SpecInvariant { n := 2, n1 := 0, lambdaArr := [1.0] } ∧
    ¬ ∀ d : OptionData, d.SpecInvariant := by
  refine ⟨by decide, by decide, by decide, fun h => ?_⟩
  exact absurd (h { n := 0, n1 := 0, lambdaArr := [] }) (by decide)

/-- C3, amended. The invariant is a precondition on the caller, not a property
of the struct: an `OptionData` that satisfies it has a non-empty parameter
array with exactly `n` entries, every index `0 <= i < n` is in bounds of
`lambdaArr`, no index from `n` on is, and `n1` is not negative. -/
theorem OptionData_invariant_consequences (d : OptionData) (h : d.SpecInvariant) :
    d.lambdaArr ≠ [] ∧
    d.lambdaArr.length = d.n.toNat ∧
    (∀ i : Nat, (i : Int) < d.n ↔ ∃ x, d.lambdaArr[i]? = some x) ∧
    0 ≤ d.n1 := by
  obtain ⟨hn, hn1, hlen⟩ := h
  refine ⟨?_, by omega, ?_, hn1⟩
  · intro hnil
    rw [hnil] at hlen
    simp at hlen
    omega
  · intro i
    rw [← hlen]
    constructor
    · intro hi
      have hi' : i < d.lambdaArr.length := by exact_mod_cast hi
      exact ⟨d.lambdaArr[i], List.getElem?_eq_getElem hi'⟩
    · rintro ⟨x, hx⟩
      have := (List.getElem?_eq_some.1 hx).1
      exact_mod_cast this

/-- The amended C3 at the specification's scenario `n = 1`, `n1 = 0`,
`lambdaArr = [1.0]`: the invariant holds there, and so do its consequences. -/
theorem OptionData_invariant_consequences_witness :
    OptionData.SpecInvariant { n := 1, n1 := 0, lambdaArr := [1.0] } ∧
    ([1.0] : List Float) ≠ [] ∧
    ([1.0] : List Float).length = (1 : Int).toNat ∧
    (∀ i : Nat, (i : Int) < 1 ↔ ∃ x, ([1.0] : List Float)[i]? = some x) ∧
    (0 : Int) ≤ 0 :=
  ⟨by decide,
    OptionData_invariant_consequences { n := 1, n1 := 0, lambdaArr := [1.0] } (by decide)⟩

/-- C6, as the claim states it, fails: the fourth parameter of each of the
three prototypes is declared `void*`; it is neither `OptionData` nor a pointer
to `OptionData`. -/
theorem entry_points_fourth_param_not_OptionData :
    ¬ (Decl.Option1 = Decl.Option2 ∧ Decl.Option2 = Decl.Option3 ∧
        ∀ p ∈ [Decl.Option1, Decl.Option2, Decl.Option3],
          p.params[3]? = some (.typedefName "OptionData")) ∧
    (∀ p ∈ [Decl.Option1, Decl.Option2, Decl.Option3],
      p.params[3]? ≠ some (.typedefName "OptionData") ∧
      p.params[3]? ≠ some (.ptr (.typedefName "OptionData"))) := by
  decide

/-- C6, amended. The three prototypes are equal: each returns `int` and takes
exactly four parameters, a `cl_context`, a `cl_device_id`, a
`cl_command_queue` and an untyped pointer `void*`. -/
theorem entry_points_uniform_prototype :
    Decl.Option1 = Decl.Option2 ∧ Decl.Option2 = Decl.Option3 ∧
    ∀ p ∈ [Decl.Option1, Decl.Option2, Decl.Option3],
      p.returns = .int ∧
      p.params.length = 4 ∧
      p.params[0]? = some (.typedefName "cl_context") ∧
      p.params[1]? = some (.typedefName "cl_device_id") ∧
      p.params[2]? = some (.typedefName "cl_command_queue") ∧
      p.params[3]? = some (.ptr .void) := by
  decide

/-- C7. `OptionData` has exactly three members, `n` and `n1` of type `int` and
`lambdaArr` of type `double*`: a value is determined by its three members (two
values that agree on them are equal), every triple of an integer, an integer
and an array of doubles is the members of a value, and the struct declares
nothing else. -/
theorem OptionData_three_members :
    Decl.OptionData.map Prod.fst = ["n", "n1", "lambdaArr"] ∧
    Decl.OptionData.map Prod.snd = [.int, .int, .ptr .double] ∧
    (∀ a b : OptionData, a = b ↔ (a.n = b.n ∧ a.n1 = b.n1 ∧ a.lambdaArr = b.lambdaArr)) ∧
    Function.Bijective OptionData.members := by
  refine ⟨by decide, by decide, ?_, ?_, ?_⟩
  · intro a b
    constructor
    · rintro rfl
      exact ⟨rfl, rfl, rfl⟩
    · rintro ⟨h1, h2, h3⟩
      cases a
      cases b
      simp_all
  · intro a b h
    cases a
    cases b
    simpa [OptionData.members] using h
  · rintro ⟨n, n1, l⟩
    exact ⟨{ n := n, n1 := n1, lambdaArr := l }, rfl⟩

/-- C5. The dispatch on a raw strategy value is total over the four values of
`ExecType` and rejects everything else: the code of each strategy is
dispatched to that strategy's recipe, a value is dispatched to some recipe
exactly when it is one of the codes `1..4`, and it is a contract violation
exactly when it is not. -/
theorem dispatch_total_and_rejecting (table : ExecType → Recipe) :
    (∀ s : ExecType, dispatch table s.code = .recipe (table s)) ∧
    (∀ v : Int, (∃ r, dispatch table v = .recipe r) ↔ ∃ s : ExecType, s.code = v) ∧
    (∀ v : Int, (∃ r, dispatch table v = .recipe r) ↔ (1 ≤ v ∧ v ≤ 4)) ∧
    (∀ v : Int, dispatch table v = .contractViolation ↔ ¬ ∃ s : ExecType, s.code = v) ∧
    (∀ v : Int, dispatch table v = .contractViolation ↔ ¬ (1 ≤ v ∧ v ≤ 4)) := by
  have hrange := ExecType.exists_code_iff
  have hsome : ∀ v : Int, (∃ r, dispatch table v = .recipe r) ↔ (1 ≤ v ∧ v ≤ 4) := by
    intro v
    constructor
    · rintro ⟨r, hr⟩
      by_contra hv
      rw [(dispatch_eq_violation_iff table v).2 hv] at hr
      cases hr
    · intro hv
      obtain ⟨s, rfl⟩ := (hrange v).2 hv
      exact ⟨table s, dispatch_code table s⟩
  refine ⟨dispatch_code table, fun v => ?_, hsome, fun v => ?_, dispatch_eq_violation_iff table⟩
  · rw [hsome, hrange]
  · rw [dispatch_eq_violation_iff, hrange]

end ClProbDist
